import Mathlib

/-!
Verification of the NEXRAD Level II decoder specification for msufi98/radar-app.

The repository's source tree holds the cross-implementation verification
scripts (`test_azimuth_angles.py`, `compare_data_values.py`,
`test_multiple_files.py`, `test_aws_nexrad.py`).  The azimuth-nearest-radial
search (`find_radial_at_azimuth`) and the gate-spacing / resolution
classification are embedded here directly from that code.  The decoder
components the spec describes (MomentScaler, MessageDecoder, VolumeIndexer,
error propagation of `decodeVolume`) have no source under the repository, so
they are modelled from the spec's own words; each such definition is marked
`Modelled from the spec:`.

Angles and physical values are modelled over ℚ (the arithmetic the claims
speak about is exact on the inputs they mention).
-/

/-- Error kinds of the decoder, as enumerated in the spec's error-handling
design (section 7) together with `EmptySweep` from the AzimuthLocator
contract. -/
inductive DecodeError where
  | TruncatedData
  | UnsupportedFormat
  | DecompressionFailure
  | CorruptRecord
  | InconsistentVolume
  | UnknownMoment
  | EmptySweep
  deriving DecidableEq, Repr

/-- Absolute value on ℚ, written out as the branch `np.abs` computes. -/
def absQ (x : ℚ) : ℚ := if x < 0 then -x else x

/-- Binary minimum on ℚ, written out as the branch `np.minimum` computes. -/
def minQ (a b : ℚ) : ℚ := if a ≤ b then a else b

theorem absQ_eq_abs (x : ℚ) : absQ x = |x| := by
  rw [absQ]
  split
  · rw [abs_of_neg]; assumption
  · rw [abs_of_nonneg]; linarith [not_lt.mp (by assumption)]

theorem minQ_eq_min (a b : ℚ) : minQ a b = min a b := by
  rw [minQ, min_def]

/-- Wrap-aware angular difference, embedded from `find_radial_at_azimuth`
(test_azimuth_angles.py lines 44-47):
`diffs = np.abs(azimuths - target); diffs = np.minimum(diffs, 360 - diffs)`. -/
def wrapDiff (az target : ℚ) : ℚ :=
  minQ (absQ (az - target)) (360 - absQ (az - target))

theorem wrapDiff_eq (az target : ℚ) :
    wrapDiff az target = min |az - target| (360 - |az - target|) := by
  rw [wrapDiff, minQ_eq_min, absQ_eq_abs]

/-- Index of the first minimum of a rational list, embedded from
`np.argmin(diffs)` (test_azimuth_angles.py line 49): `np.argmin` returns the
lowest index attaining the minimum. -/
def argminQ : List ℚ → Nat
  | [] => 0
  | [_] => 0
  | x :: y :: rest =>
      if x ≤ (y :: rest).getD (argminQ (y :: rest)) 0 then 0
      else argminQ (y :: rest) + 1

/-- The sweep's slice of the volume-wide azimuth array, embedded from
`radar.azimuth['data'][sweep_start:sweep_end+1]` (test_azimuth_angles.py
line 41). -/
def sweepSlice (azimuthData : List ℚ) (sweepStart sweepEnd : Nat) : List ℚ :=
  (azimuthData.drop sweepStart).take (sweepEnd + 1 - sweepStart)

/-- Azimuth-nearest radial lookup.  The algorithm is embedded from
`find_radial_at_azimuth` (test_azimuth_angles.py lines 36-52): slice the
sweep's azimuths, take the wrap-aware difference to the target, pick the
lowest index attaining the minimum, and return the absolute radial index
`sweep_start + closest_idx` together with the actual azimuth.
Modelled from the spec: the `EmptySweep` failure arm of the AzimuthLocator
(`nearestRadial ... Fails with EmptySweep if the sweep has zero radials`),
which has no source in the repository (numpy's `argmin` would raise on an
empty slice). -/
def nearestRadial (azimuthData : List ℚ) (sweepStart sweepEnd : Nat)
    (target : ℚ) : Except DecodeError (Nat × ℚ) :=
  let azimuths := sweepSlice azimuthData sweepStart sweepEnd
  if azimuths.isEmpty then
    .error .EmptySweep
  else
    let diffs := azimuths.map (fun az => wrapDiff az target)
    let ci := argminQ diffs
    .ok (sweepStart + ci, azimuths.getD ci 0)

theorem argminQ_spec (l : List ℚ) (hne : l ≠ []) :
    argminQ l < l.length ∧
    (∀ j, j < l.length → l.getD (argminQ l) 0 ≤ l.getD j 0) ∧
    (∀ j, j < argminQ l → l.getD (argminQ l) 0 < l.getD j 0) := by
  induction l with
  | nil => exact absurd rfl hne
  | cons x xs ih =>
    cases xs with
    | nil =>
      refine ⟨by simp [argminQ], ?_, ?_⟩
      · intro j hj
        have hj0 : j = 0 := by
          simp only [List.length_cons, List.length_nil] at hj
          omega
        subst hj0
        simp [argminQ]
      · intro j hj
        simp [argminQ] at hj
    | cons y rest =>
      obtain ⟨ih1, ih2, ih3⟩ := ih (by simp)
      by_cases hx : x ≤ (y :: rest).getD (argminQ (y :: rest)) 0
      · have hval : argminQ (x :: y :: rest) = 0 := by
          rw [argminQ, if_pos hx]
        refine ⟨by simp [hval], ?_, ?_⟩
        · intro j hj
          rcases j with _ | k
          · simp [hval]
          · have hk : k < (y :: rest).length := by
              simpa using hj
            have hx0 : (x :: y :: rest).getD (argminQ (x :: y :: rest)) 0 = x := by
              rw [hval, List.getD_cons_zero]
            rw [hx0, List.getD_cons_succ]
            exact le_trans hx (ih2 k hk)
        · intro j hj
          simp [hval] at hj
      · have hval : argminQ (x :: y :: rest) = argminQ (y :: rest) + 1 := by
          rw [argminQ, if_neg hx]
        push_neg at hx
        refine ⟨by simpa [hval] using ih1, ?_, ?_⟩
        · intro j hj
          rcases j with _ | k
          · rw [hval, List.getD_cons_succ, List.getD_cons_zero]
            exact le_of_lt hx
          · have hk : k < (y :: rest).length := by
              simpa using hj
            simpa [hval] using ih2 k hk
        · intro j hj
          rcases j with _ | k
          · rw [hval, List.getD_cons_succ, List.getD_cons_zero]
            exact hx
          · have hk : k < argminQ (y :: rest) := by
              simpa [hval] using hj
            simpa [hval] using ih3 k hk

theorem getD_map_wrapDiff (l : List ℚ) (t : ℚ) (j : Nat) (hj : j < l.length) :
    (l.map (fun az => wrapDiff az t)).getD j 0 = wrapDiff (l.getD j 0) t := by
  have hj2 : j < (l.map (fun az => wrapDiff az t)).length := by simpa using hj
  rw [List.getD_eq_getElem _ _ hj2, List.getD_eq_getElem _ _ hj, List.getElem_map]

theorem nearestRadial_empty (data : List ℚ) (s e : Nat) (t : ℚ)
    (h : sweepSlice data s e = []) :
    nearestRadial data s e t = .error .EmptySweep := by
  simp [nearestRadial, h]

theorem nearestRadial_eq_ok (data : List ℚ) (s e : Nat) (t : ℚ)
    (h : sweepSlice data s e ≠ []) :
    nearestRadial data s e t =
      .ok (s + argminQ ((sweepSlice data s e).map (fun az => wrapDiff az t)),
        (sweepSlice data s e).getD
          (argminQ ((sweepSlice data s e).map (fun az => wrapDiff az t))) 0) := by
  rw [nearestRadial]
  simp only [List.isEmpty_iff]
  rw [if_neg h]

/-- C1: for a sweep with at least one radial, `nearestRadial` returns the
absolute index and actual azimuth of the radial in the sweep's index range
minimizing the wrap-aware difference `min |az - target| (360 - |az - target|)`,
ties broken by the lowest radial index; for a sweep with zero radials it fails
with `EmptySweep`. -/
theorem nearestRadial_minimizes (data : List ℚ) (s e : Nat) (t : ℚ) :
    (sweepSlice data s e = [] →
      nearestRadial data s e t = .error .EmptySweep) ∧
    (sweepSlice data s e ≠ [] →
      ∃ ci, ci < (sweepSlice data s e).length ∧
        nearestRadial data s e t = .ok (s + ci, (sweepSlice data s e).getD ci 0) ∧
        (∀ j, j < (sweepSlice data s e).length →
          wrapDiff ((sweepSlice data s e).getD ci 0) t ≤
            wrapDiff ((sweepSlice data s e).getD j 0) t) ∧
        (∀ j, j < ci →
          wrapDiff ((sweepSlice data s e).getD ci 0) t <
            wrapDiff ((sweepSlice data s e).getD j 0) t)) := by
  constructor
  · exact nearestRadial_empty data s e t
  · intro h
    set L := sweepSlice data s e with hL
    set D := L.map (fun az => wrapDiff az t) with hD
    have hDne : D ≠ [] := by
      simpa [hD] using h
    obtain ⟨h1, h2, h3⟩ := argminQ_spec D hDne
    have hlen : D.length = L.length := by simp [hD]
    refine ⟨argminQ D, by omega, nearestRadial_eq_ok data s e t h, ?_, ?_⟩
    · intro j hj
      have hgi : D.getD (argminQ D) 0 = wrapDiff (L.getD (argminQ D) 0) t :=
        getD_map_wrapDiff L t (argminQ D) (by omega)
      have hgj : D.getD j 0 = wrapDiff (L.getD j 0) t :=
        getD_map_wrapDiff L t j (by omega)
      have := h2 j (by omega)
      rw [hgi, hgj] at this
      exact this
    · intro j hj
      have hji : j < L.length := by omega
      have hgi : D.getD (argminQ D) 0 = wrapDiff (L.getD (argminQ D) 0) t :=
        getD_map_wrapDiff L t (argminQ D) (by omega)
      have hgj : D.getD j 0 = wrapDiff (L.getD j 0) t :=
        getD_map_wrapDiff L t j (by omega)
      have := h3 j hj
      rw [hgi, hgj] at this
      exact this

theorem nearestRadial_minimizes_witness :
    sweepSlice [(30 : ℚ), 60, 90] 0 2 ≠ [] ∧
    (∃ ci, ci < (sweepSlice [(30 : ℚ), 60, 90] 0 2).length ∧
      nearestRadial [(30 : ℚ), 60, 90] 0 2 50 =
        .ok (0 + ci, (sweepSlice [(30 : ℚ), 60, 90] 0 2).getD ci 0) ∧
      (∀ j, j < (sweepSlice [(30 : ℚ), 60, 90] 0 2).length →
        wrapDiff ((sweepSlice [(30 : ℚ), 60, 90] 0 2).getD ci 0) 50 ≤
          wrapDiff ((sweepSlice [(30 : ℚ), 60, 90] 0 2).getD j 0) 50) ∧
      (∀ j, j < ci →
        wrapDiff ((sweepSlice [(30 : ℚ), 60, 90] 0 2).getD ci 0) 50 <
          wrapDiff ((sweepSlice [(30 : ℚ), 60, 90] 0 2).getD j 0) 50)) :=
  ⟨by decide, (nearestRadial_minimizes [(30 : ℚ), 60, 90] 0 2 50).2 (by decide)⟩

theorem wrapDiff_self (t : ℚ) : wrapDiff t t = 0 := by
  rw [wrapDiff_eq]
  norm_num

theorem wrapDiff_nonneg (az t : ℚ) (h1 : 0 ≤ az) (h2 : az ≤ 360)
    (h3 : 0 ≤ t) (h4 : t ≤ 360) : 0 ≤ wrapDiff az t := by
  have habs : |az - t| ≤ 360 := abs_le.mpr ⟨by linarith, by linarith⟩
  have h0 : (0 : ℚ) ≤ |az - t| := abs_nonneg _
  rw [wrapDiff_eq]
  simp only [le_min_iff]
  exact ⟨h0, by linarith⟩

theorem wrapDiff_le_180 (az t : ℚ) (h1 : 0 ≤ az) (h2 : az ≤ 360)
    (h3 : 0 ≤ t) (h4 : t ≤ 360) : wrapDiff az t ≤ 180 := by
  have habs : |az - t| ≤ 360 := abs_le.mpr ⟨by linarith, by linarith⟩
  rw [wrapDiff_eq]
  rcases le_or_lt |az - t| 180 with h | h
  · exact le_trans (min_le_left _ _) h
  · exact le_trans (min_le_right _ _) (by linarith)

theorem sweepSlice_getD_mem (L : List ℚ) (j : Nat) (hj : j < L.length) :
    L.getD j 0 ∈ L := by
  rw [List.getD_eq_getElem _ _ hj]
  exact List.getElem_mem hj

/-- C8: for every sweep whose azimuths lie in [0, 360] and every target in
[0, 360] (targets such as 359 and 1 on a sweep straddling the 0/360 boundary
included), the angular difference between the target and the azimuth of the
radial returned by `nearestRadial` is the wrap-aware
`min |az - target| (360 - |az - target|)` and never exceeds 180 degrees. -/
theorem nearestRadial_diff_le_180 (data : List ℚ) (s e : Nat) (t : ℚ)
    (i : Nat) (az : ℚ) (ht0 : 0 ≤ t) (ht1 : t ≤ 360)
    (hb : ∀ a ∈ sweepSlice data s e, 0 ≤ a ∧ a ≤ 360)
    (hok : nearestRadial data s e t = .ok (i, az)) :
    wrapDiff az t = min |az - t| (360 - |az - t|) ∧ wrapDiff az t ≤ 180 := by
  have hne : sweepSlice data s e ≠ [] := by
    intro h0
    rw [nearestRadial_empty data s e t h0] at hok
    exact Except.noConfusion hok
  have hok2 := nearestRadial_eq_ok data s e t hne
  rw [hok2] at hok
  have haz : az = (sweepSlice data s e).getD
      (argminQ ((sweepSlice data s e).map (fun a => wrapDiff a t))) 0 := by
    have := (Except.ok.injEq _ _).mp hok
    exact (Prod.mk.injEq _ _ _ _).mp this |>.2.symm
  have hlenD : ((sweepSlice data s e).map (fun a => wrapDiff a t)).length
      = (sweepSlice data s e).length := by simp
  have hDne : (sweepSlice data s e).map (fun a => wrapDiff a t) ≠ [] := by
    simpa using hne
  obtain ⟨h1, _, _⟩ := argminQ_spec _ hDne
  have hmem : az ∈ sweepSlice data s e := by
    rw [haz]
    exact sweepSlice_getD_mem _ _ (by omega)
  obtain ⟨hb1, hb2⟩ := hb az hmem
  exact ⟨wrapDiff_eq az t, wrapDiff_le_180 az t hb1 hb2 ht0 ht1⟩

theorem nearestRadial_diff_le_180_witness :
    0 ≤ (359 : ℚ) ∧ (359 : ℚ) ≤ 360 ∧
    (∀ a ∈ sweepSlice [(359 : ℚ) + 1/2, 1/2] 0 1, 0 ≤ a ∧ a ≤ 360) ∧
    nearestRadial [(359 : ℚ) + 1/2, 1/2] 0 1 359 = .ok (0, 359 + 1/2) ∧
    (wrapDiff (359 + 1/2) 359 =
        min |(359 : ℚ) + 1/2 - 359| (360 - |(359 : ℚ) + 1/2 - 359|) ∧
      wrapDiff (359 + 1/2) 359 ≤ 180) :=
  ⟨by norm_num, by norm_num, by norm_num [sweepSlice],
    by norm_num [nearestRadial, sweepSlice, argminQ, wrapDiff, absQ, minQ],
    nearestRadial_diff_le_180 [(359 : ℚ) + 1/2, 1/2] 0 1 359 0 (359 + 1/2)
      (by norm_num) (by norm_num) (by norm_num [sweepSlice])
      (by norm_num [nearestRadial, sweepSlice, argminQ, wrapDiff, absQ, minQ])⟩

/-- C9 counterexample: in the sweep with azimuths [10, 10], the radial at
index 1 has azimuth 10, yet `nearestRadial` with target 10 returns radial 0
(`np.argmin` breaks the tie at the lowest index), not that exact radial. -/
theorem nearestRadial_exact_azimuth_counterexample :
    1 < (sweepSlice [(10 : ℚ), 10] 0 1).length ∧
    (sweepSlice [(10 : ℚ), 10] 0 1).getD 1 0 = 10 ∧
    nearestRadial [(10 : ℚ), 10] 0 1 10 = .ok (0 + 0, 10) ∧
    nearestRadial [(10 : ℚ), 10] 0 1 10 ≠ .ok (0 + 1, 10) := by
  refine ⟨by norm_num [sweepSlice], by norm_num [sweepSlice], ?_, ?_⟩ <;>
    norm_num [nearestRadial, sweepSlice, argminQ, wrapDiff, absQ, minQ]

/-- C9 (amended): calling `nearestRadial` with a target azimuth equal to the
azimuth of the sweep's radial at (sweep-relative) index `i` returns that exact
radial with diff = 0, provided no lower-index radial of the sweep lies at
wrap-aware distance 0 from that azimuth (ties such as duplicate azimuths, or
0 versus 360, resolve to the lowest index instead). -/
theorem nearestRadial_exact_azimuth (data : List ℚ) (s e i : Nat)
    (hi : i < (sweepSlice data s e).length)
    (hb : ∀ a ∈ sweepSlice data s e, 0 ≤ a ∧ a ≤ 360)
    (hfirst : ∀ j, j < i →
      wrapDiff ((sweepSlice data s e).getD j 0)
        ((sweepSlice data s e).getD i 0) ≠ 0) :
    nearestRadial data s e ((sweepSlice data s e).getD i 0) =
      .ok (s + i, (sweepSlice data s e).getD i 0) ∧
    wrapDiff ((sweepSlice data s e).getD i 0)
      ((sweepSlice data s e).getD i 0) = 0 := by
  set L := sweepSlice data s e with hL
  set t := L.getD i 0 with ht
  have hne : L ≠ [] := by
    intro h0
    rw [h0] at hi
    simp at hi
  set D := L.map (fun az => wrapDiff az t) with hD
  have hDne : D ≠ [] := by simpa [hD] using hne
  have hlen : D.length = L.length := by simp [hD]
  obtain ⟨h1, h2, h3⟩ := argminQ_spec D hDne
  have hti : t ∈ L := sweepSlice_getD_mem L i hi
  obtain ⟨ht1, ht2⟩ := hb t hti
  have hDi : D.getD i 0 = 0 := by
    rw [hD, getD_map_wrapDiff L t i hi, ← ht, wrapDiff_self]
  have hnonnegD : ∀ j, j < D.length → 0 ≤ D.getD j 0 := by
    intro j hj
    rw [hD, getD_map_wrapDiff L t j (by omega)]
    obtain ⟨ha1, ha2⟩ := hb _ (sweepSlice_getD_mem L j (by omega))
    exact wrapDiff_nonneg _ _ ha1 ha2 ht1 ht2
  have hminv : D.getD (argminQ D) 0 = 0 := by
    have hle : D.getD (argminQ D) 0 ≤ 0 := by
      have := h2 i (by omega)
      rw [hDi] at this
      exact this
    exact le_antisymm hle (hnonnegD _ h1)
  have harg : argminQ D = i := by
    rcases lt_trichotomy (argminQ D) i with h | h | h
    · exfalso
      apply hfirst (argminQ D) h
      rw [hD, getD_map_wrapDiff L t (argminQ D) (by omega)] at hminv
      exact hminv
    · exact h
    · exfalso
      have := h3 i h
      rw [hDi, hminv] at this
      exact lt_irrefl 0 this
  have hok := nearestRadial_eq_ok data s e t hne
  rw [← hL, ← hD, harg, ← ht] at hok
  exact ⟨hok, wrapDiff_self t⟩

theorem nearestRadial_exact_azimuth_witness :
    1 < (sweepSlice [(30 : ℚ), 60] 0 1).length ∧
    (nearestRadial [(30 : ℚ), 60] 0 1 ((sweepSlice [(30 : ℚ), 60] 0 1).getD 1 0) =
      .ok (0 + 1, (sweepSlice [(30 : ℚ), 60] 0 1).getD 1 0) ∧
    wrapDiff ((sweepSlice [(30 : ℚ), 60] 0 1).getD 1 0)
      ((sweepSlice [(30 : ℚ), 60] 0 1).getD 1 0) = 0) :=
  ⟨by norm_num [sweepSlice],
    nearestRadial_exact_azimuth [(30 : ℚ), 60] 0 1 1 (by norm_num [sweepSlice])
      (by norm_num [sweepSlice])
      (fun j hj => by
        interval_cases j
        norm_num [sweepSlice, wrapDiff, absQ, minQ])⟩

/-- Sub-reason carried by a no-data gate: the format's reserved sentinel
meanings. -/
inductive NoDataReason where
  | belowThreshold
  | rangeFolded
  deriving DecidableEq, Repr

/-- Three-state gate value of the data model: a physical value, or no-data
with its sub-reason. -/
inductive GateValue where
  | value : ℚ → GateValue
  | noData : NoDataReason → GateValue
  deriving DecidableEq, Repr

/-- Reserved below-threshold gate code (spec: sentinel codes for
below-threshold (0)). -/
def belowThresholdSentinel : Nat := 0

/-- Reserved range-folded gate code (spec: sentinel codes for
range-folded (1)). -/
def rangeFoldedSentinel : Nat := 1

/-- Modelled from the spec: the MomentScaler per-gate decoding rule, absent
from the repository source.  Spec 4.4: sentinel 0 maps to no-data with the
below-threshold sub-reason, sentinel 1 to no-data with the range-folded
sub-reason, otherwise physical value = `offset + code / scale`. -/
def scaleGateCode (scale offset : ℚ) (code : Nat) : GateValue :=
  if code = belowThresholdSentinel then .noData .belowThreshold
  else if code = rangeFoldedSentinel then .noData .rangeFolded
  else .value (offset + (code : ℚ) / scale)

/-- C4: for every scale/offset pair, a raw gate code equal to the
below-threshold sentinel (0) decodes to no-data with the below-threshold
sub-reason, and a raw code equal to the range-folded sentinel (1) decodes to
no-data with the range-folded sub-reason, independent of scale and offset. -/
theorem scaleGateCode_sentinels (scale offset : ℚ) :
    scaleGateCode scale offset belowThresholdSentinel =
      .noData .belowThreshold ∧
    scaleGateCode scale offset rangeFoldedSentinel = .noData .rangeFolded := by
  constructor <;> rfl

/-- C2: a non-sentinel gate code decodes to the physical value
`offset + code / scale`; an 8-bit code spans 0-255 and a 16-bit code spans
0-65535; in particular word size 8, scale 2, offset -32 decode code 132 to
exactly 34. -/
theorem scaleGateCode_nonsentinel (w : Nat) (scale offset : ℚ) (code : Nat)
    (hw : w = 8 ∨ w = 16) (hcode : code < 2 ^ w)
    (h0 : code ≠ belowThresholdSentinel) (h1 : code ≠ rangeFoldedSentinel) :
    scaleGateCode scale offset code = .value (offset + (code : ℚ) / scale) ∧
    (w = 8 → code ≤ 255) ∧ (w = 16 → code ≤ 65535) ∧
    scaleGateCode 2 (-32) 132 = .value 34 := by
  refine ⟨?_, ?_, ?_, ?_⟩
  · rw [scaleGateCode, if_neg h0, if_neg h1]
  · intro h8
    subst h8
    omega
  · intro h16
    subst h16
    omega
  · norm_num [scaleGateCode, belowThresholdSentinel, rangeFoldedSentinel]

theorem scaleGateCode_nonsentinel_witness :
    ((8 = 8 ∨ 8 = 16) ∧ 132 < 2 ^ 8 ∧ 132 ≠ belowThresholdSentinel ∧
      132 ≠ rangeFoldedSentinel) ∧
    (scaleGateCode 2 (-32) 132 = .value (-32 + (132 : ℚ) / 2) ∧
      (8 = 8 → 132 ≤ 255) ∧ (8 = 16 → 132 ≤ 65535) ∧
      scaleGateCode 2 (-32) 132 = .value 34) :=
  ⟨⟨Or.inl rfl, by norm_num, by decide, by decide⟩,
    scaleGateCode_nonsentinel 8 2 (-32) 132 (Or.inl rfl) (by norm_num)
      (by decide) (by decide)⟩

/-- Normalized radial record of the data model (the fields the claims here
touch): azimuth, elevation, the radial status that delimits sweeps, and the
mapping from moment name to decoded gate values. -/
structure Radial where
  azimuth : ℚ
  elevation : ℚ
  radialStatus : Nat
  moments : List (String × List GateValue)
  deriving DecidableEq, Repr

/-- Fields of a Message Type 1 (legacy digital radar data) record that the
decoding claims touch. -/
structure Msg1 where
  azimuth : ℚ
  elevation : ℚ
  radialStatus : Nat
  resolutionFlag : Bool
  refCodes : List Nat
  velCodes : List Nat
  swCodes : List Nat
  deriving DecidableEq, Repr

/-- Fixed Type 1 reflectivity scale (spec: reflectivity scale 2). -/
def msg1RefScale : ℚ := 2

/-- Fixed Type 1 reflectivity offset (spec: reflectivity offset 66.0). -/
def msg1RefOffset : ℚ := 66

/-- Modelled from the spec: Type 1 reflectivity gate decoding (the
MessageDecoder is absent from the repository source).  The fixed pair
scale 2 / offset 66.0 realizes the `(code-2)/2 - 32` dBZ convention; code 0 is
below-threshold, code 1 is range-folded. -/
def scaleMsg1RefCode (code : Nat) : GateValue :=
  if code = belowThresholdSentinel then .noData .belowThreshold
  else if code = rangeFoldedSentinel then .noData .rangeFolded
  else .value (((code : ℚ) - msg1RefOffset) / msg1RefScale)

/-- Modelled from the spec: the Type 1 velocity/spectrum-width scale depends
on the resolution flag and is either 2 or 1. -/
def msg1DopplerScale (resolutionFlag : Bool) : ℚ :=
  if resolutionFlag then 2 else 1

/-- Modelled from the spec: Type 1 velocity/spectrum-width gate decoding; the
spec fixes the scale via the resolution flag, while the offset comes from the
fixed per-moment table the spec does not enumerate, so the offset stays a
parameter. -/
def scaleMsg1DopplerCode (resolutionFlag : Bool) (offset : ℚ)
    (code : Nat) : GateValue :=
  scaleGateCode (msg1DopplerScale resolutionFlag) offset code

/-- Modelled from the spec: decoding one Message Type 1 record into its
Radial (fixed-offset fields give azimuth, elevation, radial status and up to
three moments; `Produces one Radial per message`). -/
def decodeMsg1 (velOffset swOffset : ℚ) (m : Msg1) : List Radial :=
  [{ azimuth := m.azimuth
     elevation := m.elevation
     radialStatus := m.radialStatus
     moments := [("REF", m.refCodes.map scaleMsg1RefCode),
                 ("VEL", m.velCodes.map
                   (scaleMsg1DopplerCode m.resolutionFlag velOffset)),
                 ("SW", m.swCodes.map
                   (scaleMsg1DopplerCode m.resolutionFlag swOffset))] }]

/-- C3: Type 1 reflectivity uses the fixed pair scale 2 / offset 66.0, so a
non-sentinel code c decodes to (c-2)/2 - 32 dBZ; code 0 decodes to
below-threshold and code 1 to range-folded; velocity and spectrum width use
scale 2 or 1 according to the resolution flag; and decoding a Type 1 message
produces exactly one Radial. -/
theorem msg1_fixed_scaling (code : Nat) (h0 : code ≠ belowThresholdSentinel)
    (h1 : code ≠ rangeFoldedSentinel) :
    msg1RefScale = 2 ∧ msg1RefOffset = 66 ∧
    scaleMsg1RefCode code = .value (((code : ℚ) - 2) / 2 - 32) ∧
    scaleMsg1RefCode belowThresholdSentinel = .noData .belowThreshold ∧
    scaleMsg1RefCode rangeFoldedSentinel = .noData .rangeFolded ∧
    (∀ f : Bool, msg1DopplerScale f = 2 ∨ msg1DopplerScale f = 1) ∧
    (∀ (vo so : ℚ) (m : Msg1), (decodeMsg1 vo so m).length = 1) := by
  refine ⟨rfl, rfl, ?_, rfl, rfl, ?_, ?_⟩
  · rw [scaleMsg1RefCode, if_neg h0, if_neg h1, msg1RefOffset, msg1RefScale]
    have harith : ((code : ℚ) - 66) / 2 = ((code : ℚ) - 2) / 2 - 32 := by
      ring
    rw [harith]
  · intro f
    cases f
    · exact Or.inr rfl
    · exact Or.inl rfl
  · intro vo so m
    rfl

theorem msg1_fixed_scaling_witness :
    (132 ≠ belowThresholdSentinel ∧ 132 ≠ rangeFoldedSentinel) ∧
    (msg1RefScale = 2 ∧ msg1RefOffset = 66 ∧
      scaleMsg1RefCode 132 = .value (((132 : ℚ) - 2) / 2 - 32) ∧
      scaleMsg1RefCode belowThresholdSentinel = .noData .belowThreshold ∧
      scaleMsg1RefCode rangeFoldedSentinel = .noData .rangeFolded ∧
      (∀ f : Bool, msg1DopplerScale f = 2 ∨ msg1DopplerScale f = 1) ∧
      (∀ (vo so : ℚ) (m : Msg1), (decodeMsg1 vo so m).length = 1)) :=
  ⟨⟨by decide, by decide⟩, msg1_fixed_scaling 132 (by decide) (by decide)⟩

/-- Per-moment sub-block of a Type 31 message (the header fields the claims
touch: word size, scale, offset, gate count, first-gate range, gate-range
step) together with its raw gate codes. -/
structure MomentSubBlock where
  wordSize : Nat
  scale : ℚ
  offset : ℚ
  ngates : Nat
  firstGateRange : ℚ
  gateSpacing : ℚ
  codes : List Nat
  deriving DecidableEq, Repr

/-- MomentField of the data model: ordered gate values, first-gate range (m),
gate spacing (m), gate count. -/
structure MomentField where
  values : List GateValue
  firstGateRange : ℚ
  gateSpacing : ℚ
  gateCount : Nat
  deriving DecidableEq, Repr

/-- Modelled from the spec: MomentScaler decoding of one moment sub-block
(absent from the repository source).  Each gate code is scaled with the
sub-block's own scale/offset; output preserves gate ordering and count
exactly as received; a code array shorter than the gate count is truncated
data. -/
def decodeMomentField (b : MomentSubBlock) : Except DecodeError MomentField :=
  if b.codes.length < b.ngates then .error .TruncatedData
  else .ok { values := (b.codes.take b.ngates).map
               (scaleGateCode b.scale b.offset)
             firstGateRange := b.firstGateRange
             gateSpacing := b.gateSpacing
             gateCount := b.ngates }

/-- Range from the radar of the i-th gate of a moment field: the first-gate
range followed by successive gate-spacing steps. -/
def gateRange (f : MomentField) (i : Nat) : ℚ :=
  f.firstGateRange + (i : ℚ) * f.gateSpacing

/-- C6: every decoded MomentField has as many gate values as its gate count,
and (the gate-range step of the sub-block being positive) its gate ranges are
strictly increasing. -/
theorem momentField_invariant (b : MomentSubBlock) (f : MomentField)
    (hok : decodeMomentField b = .ok f) (hpos : 0 < b.gateSpacing) :
    f.values.length = f.gateCount ∧
    (∀ i j : Nat, i < j → gateRange f i < gateRange f j) := by
  rw [decodeMomentField] at hok
  by_cases hlen : b.codes.length < b.ngates
  · rw [if_pos hlen] at hok
    exact Except.noConfusion hok
  · rw [if_neg hlen] at hok
    have hf := Except.ok.inj hok
    constructor
    · rw [← hf]
      simp only [List.length_map, List.length_take]
      omega
    · intro i j hij
      have hsp : f.gateSpacing = b.gateSpacing := by rw [← hf]
      rw [gateRange, gateRange, hsp]
      have hcast : (i : ℚ) < (j : ℚ) := by exact_mod_cast hij
      have hmul := mul_lt_mul_of_pos_right hcast hpos
      linarith

theorem momentField_invariant_witness :
    (decodeMomentField ⟨8, 2, -32, 2, 2125, 250, [0, 132]⟩ =
        .ok ⟨[.noData .belowThreshold, .value 34], 2125, 250, 2⟩ ∧
      (0 : ℚ) < 250) ∧
    ((MomentField.mk [.noData .belowThreshold, .value 34]
        2125 250 2).values.length =
      (MomentField.mk [.noData .belowThreshold, .value 34]
        2125 250 2).gateCount ∧
    (∀ i j : Nat, i < j →
      gateRange ⟨[.noData .belowThreshold, .value 34], 2125, 250, 2⟩ i <
        gateRange ⟨[.noData .belowThreshold, .value 34], 2125, 250, 2⟩ j)) := by
  have hok : decodeMomentField ⟨8, 2, -32, 2, 2125, 250, [0, 132]⟩ =
      .ok ⟨[.noData .belowThreshold, .value 34], 2125, 250, 2⟩ := by
    norm_num [decodeMomentField, scaleGateCode, belowThresholdSentinel,
      rangeFoldedSentinel]
  exact ⟨⟨hok, by norm_num⟩,
    momentField_invariant ⟨8, 2, -32, 2, 2125, 250, [0, 132]⟩
      ⟨[.noData .belowThreshold, .value 34], 2125, 250, 2⟩ hok (by norm_num)⟩

/-- Per-moment gate spacing, embedded from the verification scripts
(test_azimuth_angles.py line 175 and test_multiple_files.py line 114):
`range_data[1] - range_data[0] if len(range_data) > 1 else 0`. -/
def gateSpacingOf (rangeData : List ℚ) : ℚ :=
  if 1 < rangeData.length then rangeData.getD 1 0 - rangeData.getD 0 0 else 0

/-- Resolution classification, embedded from test_azimuth_angles.py
lines 183-190: `is_hires = gate_spacing <= 250`, reported as hi-res else
regular. -/
def resolutionClass (gateSpacing : ℚ) : String :=
  if gateSpacing ≤ 250 then "hi-res" else "regular"

/-- C7: the recorded gate spacing is range[1] - range[0] when at least two
gates exist and 0 otherwise, and the resolution classification is hi-res
exactly when the gate spacing is at most 250 m, else regular. -/
theorem gateSpacing_resolution (rangeData : List ℚ) :
    (2 ≤ rangeData.length →
      gateSpacingOf rangeData = rangeData.getD 1 0 - rangeData.getD 0 0) ∧
    (rangeData.length < 2 → gateSpacingOf rangeData = 0) ∧
    (∀ gs : ℚ, resolutionClass gs = "hi-res" ↔ gs ≤ 250) ∧
    (∀ gs : ℚ, resolutionClass gs = "regular" ↔ ¬gs ≤ 250) := by
  refine ⟨?_, ?_, ?_, ?_⟩
  · intro h2
    rw [gateSpacingOf, if_pos (by omega)]
  · intro h2
    rw [gateSpacingOf, if_neg (by omega)]
  · intro gs
    rw [resolutionClass]
    split
    · exact iff_of_true rfl (by assumption)
    · exact iff_of_false (by decide) (by assumption)
  · intro gs
    rw [resolutionClass]
    split
    · exact iff_of_false (by decide) (not_not.mpr (by assumption))
    · exact iff_of_true rfl (by assumption)

theorem gateSpacing_resolution_witness :
    2 ≤ ([(2125 : ℚ), 2375]).length ∧
    gateSpacingOf [(2125 : ℚ), 2375] =
      ([(2125 : ℚ), 2375]).getD 1 0 - ([(2125 : ℚ), 2375]).getD 0 0 ∧
    (resolutionClass (gateSpacingOf [(2125 : ℚ), 2375]) = "hi-res" ↔
      gateSpacingOf [(2125 : ℚ), 2375] ≤ 250) :=
  ⟨by norm_num,
    (gateSpacing_resolution [(2125 : ℚ), 2375]).1 (by norm_num),
    (gateSpacing_resolution [(2125 : ℚ), 2375]).2.2.1 _⟩

/-- Start/end radial index range of one sweep (inclusive, start ≤ end). -/
structure SweepRange where
  startIdx : Nat
  endIdx : Nat
  deriving DecidableEq, Repr

/-- Whether radial index i falls in the sweep's inclusive index range. -/
def inRange (r : SweepRange) (i : Nat) : Bool :=
  decide (r.startIdx ≤ i) && decide (i ≤ r.endIdx)

/-- Modelled from the spec: the VolumeIndexer scans radial-status
transitions, status 0 marking the start of a new elevation cut.
`buildSweepsGo l cur next` processes the statuses `l` of the radials at
indices next, next+1, ..., with the current sweep open since index cur;
exhausting the radials closes the current sweep at the last index. -/
def buildSweepsGo : List Nat → Nat → Nat → List SweepRange
  | [], cur, next => [⟨cur, next - 1⟩]
  | s :: rest, cur, next =>
      if s = 0 then ⟨cur, next - 1⟩ :: buildSweepsGo rest next (next + 1)
      else buildSweepsGo rest cur (next + 1)

/-- Modelled from the spec: group the volume's radial statuses (in radial
order) into per-sweep start/end index ranges; the first radial always opens
sweep 0. -/
def buildSweeps (statuses : List Nat) : List SweepRange :=
  match statuses with
  | [] => []
  | _ :: rest => buildSweepsGo rest 0 1

/-- The ranges chain exactly over the inclusive index interval [lo, hi]: the
first starts at lo, each is nonempty and stays inside the interval, each
next one starts right after the previous ends, and the last ends at hi. -/
def coversExactly : List SweepRange → Nat → Nat → Prop
  | [], lo, hi => hi + 1 = lo
  | r :: rest, lo, hi =>
      r.startIdx = lo ∧ lo ≤ r.endIdx ∧ r.endIdx ≤ hi ∧
        coversExactly rest (r.endIdx + 1) hi

theorem buildSweepsGo_covers (l : List Nat) (cur next : Nat)
    (h : cur < next) :
    coversExactly (buildSweepsGo l cur next) cur (next + l.length - 1) := by
  induction l generalizing cur next with
  | nil =>
    simp only [buildSweepsGo, coversExactly, List.length_nil]
    exact ⟨trivial, by omega, by omega, by omega⟩
  | cons s rest ih =>
    by_cases hs : s = 0
    · rw [buildSweepsGo, if_pos hs]
      simp only [coversExactly]
      refine ⟨trivial, by omega, by simp only [List.length_cons]; omega, ?_⟩
      have hrec := ih next (next + 1) (by omega)
      have hlo : next - 1 + 1 = next := by omega
      have hhi : next + (s :: rest).length - 1 = next + 1 + rest.length - 1 := by
        simp only [List.length_cons]
        omega
      rw [hlo, hhi]
      exact hrec
    · rw [buildSweepsGo, if_neg hs]
      have hrec := ih cur (next + 1) (by omega)
      have hhi : next + (s :: rest).length - 1 = next + 1 + rest.length - 1 := by
        simp only [List.length_cons]
        omega
      rw [hhi]
      exact hrec

theorem coversExactly_start_le (l : List SweepRange) (lo hi : Nat)
    (h : coversExactly l lo hi) : ∀ r ∈ l, lo ≤ r.startIdx := by
  induction l generalizing lo with
  | nil =>
    intro r hr
    exact absurd hr (List.not_mem_nil r)
  | cons r0 rest ih =>
    intro r hr
    obtain ⟨hs, he1, he2, hrest⟩ := h
    rcases List.mem_cons.mp hr with h0 | h0
    · subst h0
      omega
    · have := ih (r0.endIdx + 1) hrest r h0
      omega

theorem coversExactly_nonempty_ranges (l : List SweepRange) (lo hi : Nat)
    (h : coversExactly l lo hi) : ∀ r ∈ l, r.startIdx ≤ r.endIdx := by
  induction l generalizing lo with
  | nil =>
    intro r hr
    exact absurd hr (List.not_mem_nil r)
  | cons r0 rest ih =>
    intro r hr
    obtain ⟨hs, he1, he2, hrest⟩ := h
    rcases List.mem_cons.mp hr with h0 | h0
    · subst h0
      omega
    · exact ih (r0.endIdx + 1) hrest r h0

theorem coversExactly_count (l : List SweepRange) (lo hi : Nat)
    (h : coversExactly l lo hi) :
    ∀ i, lo ≤ i → i ≤ hi → l.countP (fun r => inRange r i) = 1 := by
  induction l generalizing lo with
  | nil =>
    intro i h1 h2
    simp only [coversExactly] at h
    omega
  | cons r0 rest ih =>
    intro i h1 h2
    obtain ⟨hs, he1, he2, hrest⟩ := h
    by_cases hin : i ≤ r0.endIdx
    · have hhead : inRange r0 i = true := by
        simp only [inRange, Bool.and_eq_true, decide_eq_true_eq]
        omega
      have hrest0 : rest.countP (fun r => inRange r i) = 0 := by
        rw [List.countP_eq_zero]
        intro r hr
        have hstart := coversExactly_start_le rest (r0.endIdx + 1) hi hrest r hr
        simp only [inRange, Bool.and_eq_true, decide_eq_true_eq, not_and]
        omega
      simp [List.countP_cons, hrest0, hhead]
    · have hhead : inRange r0 i = false := by
        simp only [inRange]
        have hd : decide (i ≤ r0.endIdx) = false := by
          simpa using hin
        rw [hd, Bool.and_false]
      have htail := ih (r0.endIdx + 1) hrest i (by omega) h2
      simp [List.countP_cons, hhead, htail]

/-- C5: the sweep index ranges built from a nonempty radial-status sequence
are inclusive with start ≤ end, chain contiguously in ascending radial-index
order covering indices 0 through the last radial with no gaps or overlaps,
and every radial index lies in exactly one sweep's range. -/
theorem buildSweeps_partition (statuses : List Nat) (hne : statuses ≠ []) :
    coversExactly (buildSweeps statuses) 0 (statuses.length - 1) ∧
    (∀ r ∈ buildSweeps statuses, r.startIdx ≤ r.endIdx) ∧
    (∀ i, i < statuses.length →
      (buildSweeps statuses).countP (fun r => inRange r i) = 1) := by
  match statuses with
  | [] => exact absurd rfl hne
  | s :: rest =>
    have hcov := buildSweepsGo_covers rest 0 1 (by omega)
    have hlen : 1 + rest.length - 1 = (s :: rest).length - 1 := by
      simp only [List.length_cons]
      omega
    rw [hlen] at hcov
    have hcov2 : coversExactly (buildSweeps (s :: rest)) 0
        ((s :: rest).length - 1) := hcov
    refine ⟨hcov2, coversExactly_nonempty_ranges _ _ _ hcov2, ?_⟩
    intro i hi
    exact coversExactly_count _ _ _ hcov2 i (by omega)
      (by simp only [List.length_cons] at hi ⊢; omega)

theorem buildSweeps_partition_witness :
    ([0, 1, 1, 0, 1] : List Nat) ≠ [] ∧
    (coversExactly (buildSweeps [0, 1, 1, 0, 1]) 0
        (([0, 1, 1, 0, 1] : List Nat).length - 1) ∧
      (∀ r ∈ buildSweeps [0, 1, 1, 0, 1], r.startIdx ≤ r.endIdx) ∧
      (∀ i, i < ([0, 1, 1, 0, 1] : List Nat).length →
        (buildSweeps [0, 1, 1, 0, 1]).countP (fun r => inRange r i) = 1)) :=
  ⟨by decide, buildSweeps_partition [0, 1, 1, 0, 1] (by decide)⟩

/-- Modelled from the spec: decodeVolume's propagation policy over the
sequence of per-record decode outcomes (the decoder itself is absent from
the repository source).  Per-record errors are accumulated into the
diagnostics list and decoding continues; `UnsupportedFormat` alone aborts
the whole decode. -/
def accumulateRecords :
    List (Except DecodeError Radial) →
      Except DecodeError (List Radial × List DecodeError)
  | [] => .ok ([], [])
  | .ok r :: rest =>
      match accumulateRecords rest with
      | .error e2 => .error e2
      | .ok (rs, ds) => .ok (r :: rs, ds)
  | .error e :: rest =>
      if e = .UnsupportedFormat then .error .UnsupportedFormat
      else
        match accumulateRecords rest with
        | .error e2 => .error e2
        | .ok (rs, ds) => .ok (rs, e :: ds)

/-- The radial of a successful record outcome, if any. -/
def okRadial : Except DecodeError Radial → Option Radial
  | .ok r => some r
  | .error _ => none

/-- The error of a failed record outcome, if any. -/
def errOf : Except DecodeError Radial → Option DecodeError
  | .ok _ => none
  | .error e => some e

/-- C10: if no record outcome is `UnsupportedFormat`, the decode succeeds,
keeping exactly the successfully decoded radials in order and accumulating
every per-record error (TruncatedData, DecompressionFailure, CorruptRecord,
UnknownMoment, ...) into the diagnostics list in order; if any record
outcome is `UnsupportedFormat`, the whole decode aborts with that error. -/
theorem accumulateRecords_policy
    (records : List (Except DecodeError Radial)) :
    (Except.error DecodeError.UnsupportedFormat ∉ records →
      accumulateRecords records =
        .ok (records.filterMap okRadial, records.filterMap errOf)) ∧
    (Except.error DecodeError.UnsupportedFormat ∈ records →
      accumulateRecords records = .error .UnsupportedFormat) := by
  induction records with
  | nil =>
    constructor
    · intro _
      rfl
    · intro h
      exact absurd h (List.not_mem_nil _)
  | cons rec rest ih =>
    cases rec with
    | ok r =>
      constructor
      · intro h
        have hrest : Except.error DecodeError.UnsupportedFormat ∉ rest :=
          fun hc => h (List.mem_cons_of_mem _ hc)
        simp only [accumulateRecords, ih.1 hrest]
        simp [okRadial, errOf, List.filterMap_cons]
      · intro h
        have hmem : Except.error DecodeError.UnsupportedFormat ∈ rest := by
          rcases List.mem_cons.mp h with h0 | h0
          · exact absurd h0 (by simp)
          · exact h0
        simp only [accumulateRecords, ih.2 hmem]
    | error e =>
      by_cases he : e = DecodeError.UnsupportedFormat
      · subst he
        constructor
        · intro h
          exact absurd (List.mem_cons_self _ _) h
        · intro _
          simp [accumulateRecords]
      · constructor
        · intro h
          have hrest : Except.error DecodeError.UnsupportedFormat ∉ rest :=
            fun hc => h (List.mem_cons_of_mem _ hc)
          simp only [accumulateRecords, if_neg he, ih.1 hrest]
          simp [okRadial, errOf, List.filterMap_cons]
        · intro h
          have hmem : Except.error DecodeError.UnsupportedFormat ∈ rest := by
            rcases List.mem_cons.mp h with h0 | h0
            · exact absurd (Except.error.inj h0).symm he
            · exact h0
          simp only [accumulateRecords, if_neg he, ih.2 hmem]

theorem accumulateRecords_policy_witness :
    (Except.error DecodeError.UnsupportedFormat ∉
        ([.ok ⟨30, 1, 4, []⟩, .error .CorruptRecord, .error .TruncatedData] :
          List (Except DecodeError Radial)) ∧
      accumulateRecords
          [.ok ⟨30, 1, 4, []⟩, .error .CorruptRecord, .error .TruncatedData] =
        .ok (([.ok ⟨30, 1, 4, []⟩, .error .CorruptRecord,
            .error .TruncatedData] :
            List (Except DecodeError Radial)).filterMap okRadial,
          ([.ok ⟨30, 1, 4, []⟩, .error .CorruptRecord,
            .error .TruncatedData] :
            List (Except DecodeError Radial)).filterMap errOf)) ∧
    (Except.error DecodeError.UnsupportedFormat ∈
        ([.error .CorruptRecord, .error .UnsupportedFormat] :
          List (Except DecodeError Radial)) ∧
      accumulateRecords [.error .CorruptRecord, .error .UnsupportedFormat] =
        .error .UnsupportedFormat) := by
  have hnm : Except.error DecodeError.UnsupportedFormat ∉
      ([.ok ⟨30, 1, 4, []⟩, .error .CorruptRecord, .error .TruncatedData] :
        List (Except DecodeError Radial)) := by
    simp
  have hm : Except.error DecodeError.UnsupportedFormat ∈
      ([.error .CorruptRecord, .error .UnsupportedFormat] :
        List (Except DecodeError Radial)) := by
    simp
  exact ⟨⟨hnm,
      (accumulateRecords_policy
        [.ok ⟨30, 1, 4, []⟩, .error .CorruptRecord,
          .error .TruncatedData]).1 hnm⟩,
    ⟨hm,
      (accumulateRecords_policy
        [.error .CorruptRecord, .error .UnsupportedFormat]).2 hm⟩⟩
